import Mathlib

/-!
Verification of the secure-shell-server command validation and secure
execution engine.

The development shallowly embeds:
- the `pkg/config` package (`ShellCommandConfig`, its custom JSON
  decoding `UnmarshalJSON` / `UnmarshalAllowCommands` /
  `UnmarshalDenyCommands`, re-serialization per the Go struct tags,
  `IsCommandAllowed`, `NewDefaultConfig`);
- the `pkg/runner` package (`SafeRunner.Run`, `SafeRunner.RunScript`
  and its exec handler), modelled as trace-producing functions so that
  ordering properties (validation before launch, logging before launch,
  deadline derivations) are visible as event sequences;
- the validator rule evaluation `Decide` (the validator package is not
  part of the sources at hand; it is modelled from the specification).

Machine integers are modelled as `Int` (Go `int`); JSON documents as an
inductive `Json` value; Go `nil` slices for `json.RawMessage` fields as
`Option Json` (absent field = `none`).
-/

namespace SecureShell

/-- JSON value, as far as the config decoding needs it.  Numbers are
integers (the config has only integer fields; a fractional number would
fail Go decoding into `int` and is out of scope for the claims). -/
inductive Json where
  | null : Json
  | bool (b : Bool) : Json
  | num (n : Int) : Json
  | str (s : String) : Json
  | arr (xs : List Json) : Json
  | obj (fields : List (String × Json)) : Json

/-- Field access on a decoded JSON object.  Go `encoding/json` lets a
later duplicate key overwrite an earlier one, hence the `reverse`. -/
def lookupField (fields : List (String × Json)) (k : String) : Option Json :=
  fields.reverse.lookup k

/-- `DenyCommand` (config.go): a command that is explicitly denied. -/
structure DenyCommand where
  command : String := ""
  message : String := ""
deriving DecidableEq, Repr

/-- `AllowCommand` (config.go): an explicitly allowed command with
optional subcommand specifications.  Go `nil`/empty slices are both
`[]` here; `encoding/json` with `omitempty` treats them alike. -/
structure AllowCommand where
  command : String := ""
  subCommands : List String := []
  denySubCommands : List String := []
deriving DecidableEq, Repr

/-- `ShellCommandConfig` (config.go): shell command permission policy. -/
structure ShellCommandConfig where
  allowedDirectories : List String := []
  allowCommands : List AllowCommand := []
  denyCommands : List DenyCommand := []
  defaultErrorMessage : String := ""
  blockLogPath : String := ""
  maxExecutionTime : Int := 0
  maxOutputSize : Int := 0
deriving DecidableEq, Repr

/-- `DefaultExecutionTimeout` (config.go). -/
def DefaultExecutionTimeout : Int := 30

/-- `DefaultMaxOutputSize` (config.go): 50 KiB. -/
def DefaultMaxOutputSize : Int := 50 * 1024

/-- Go `json.Unmarshal` into a `string`: JSON null leaves the zero
value, a JSON string is taken verbatim, anything else is a type error. -/
def decodeString : Json → Except String String
  | Json.str s => Except.ok s
  | Json.null => Except.ok ""
  | _ => Except.error "cannot unmarshal value into string"

/-- Go `json.Unmarshal` into `[]string`. -/
def decodeStringList : Json → Except String (List String)
  | Json.null => Except.ok []
  | Json.arr xs => xs.mapM decodeString
  | _ => Except.error "cannot unmarshal value into string slice"

/-- Go `json.Unmarshal` into an `int` (integral JSON numbers only). -/
def decodeInt : Json → Except String Int
  | Json.num n => Except.ok n
  | Json.null => Except.ok 0
  | _ => Except.error "cannot unmarshal value into int"

/-- Decode an optional object field of string type (absent → zero value). -/
def fieldString (fields : List (String × Json)) (k : String) : Except String String :=
  match lookupField fields k with
  | none => Except.ok ""
  | some v => decodeString v

/-- Decode an optional object field of `[]string` type (absent → nil → `[]`). -/
def fieldStringList (fields : List (String × Json)) (k : String) : Except String (List String) :=
  match lookupField fields k with
  | none => Except.ok []
  | some v => decodeStringList v

/-- Decode an optional object field of `int` type (absent → 0). -/
def fieldInt (fields : List (String × Json)) (k : String) : Except String Int :=
  match lookupField fields k with
  | none => Except.ok 0
  | some v => decodeInt v

/-- One entry of the `allowCommands` array decoded as a structured
object (the fallback path of `UnmarshalAllowCommands`): Go decodes the
raw message into an `AllowCommand` struct; JSON null leaves the zero
value. -/
def decodeAllowObject : Json → Except String AllowCommand
  | Json.null => Except.ok {}
  | Json.obj fields => do
      let command ← fieldString fields "command"
      let subCommands ← fieldStringList fields "subCommands"
      let denySubCommands ← fieldStringList fields "denySubCommands"
      Except.ok { command := command, subCommands := subCommands,
                  denySubCommands := denySubCommands }
  | _ => Except.error "cannot unmarshal value into AllowCommand"

/-- One entry of the `allowCommands` array: a bare string is shorthand
for an `AllowCommand` with only the command set, otherwise the entry is
decoded as an object (config.go, `UnmarshalAllowCommands` loop body). -/
def decodeAllowEntry : Json → Except String AllowCommand
  | Json.str s => Except.ok { command := s }
  | j => decodeAllowObject j

/-- One entry of the `denyCommands` array decoded as a structured
object (the fallback path of `UnmarshalDenyCommands`). -/
def decodeDenyObject : Json → Except String DenyCommand
  | Json.null => Except.ok {}
  | Json.obj fields => do
      let command ← fieldString fields "command"
      let message ← fieldString fields "message"
      Except.ok { command := command, message := message }
  | _ => Except.error "cannot unmarshal value into DenyCommand"

/-- One entry of the `denyCommands` array: bare string or object
(config.go, `UnmarshalDenyCommands` loop body). -/
def decodeDenyEntry : Json → Except String DenyCommand
  | Json.str s => Except.ok { command := s }
  | j => decodeDenyObject j

/-- `UnmarshalAllowCommands` (config.go): the argument is the raw
message of the `allowCommands` field.  A Go `nil` raw message (field
absent from the JSON object) makes the inner `json.Unmarshal` fail with
an unexpected-end-of-input error; a JSON null leaves the slice nil, so
the loop runs zero times and the (non-nil, empty) result is returned. -/
def UnmarshalAllowCommands : Option Json → Except String (List AllowCommand)
  | none => Except.error "unexpected end of JSON input"
  | some Json.null => Except.ok []
  | some (Json.arr xs) => xs.mapM decodeAllowEntry
  | some _ => Except.error "cannot unmarshal value into RawMessage slice"

/-- `UnmarshalDenyCommands` (config.go): mirror of
`UnmarshalAllowCommands` for deny entries. -/
def UnmarshalDenyCommands : Option Json → Except String (List DenyCommand)
  | none => Except.error "unexpected end of JSON input"
  | some Json.null => Except.ok []
  | some (Json.arr xs) => xs.mapM decodeDenyEntry
  | some _ => Except.error "cannot unmarshal value into RawMessage slice"

/-- The anonymous `raw` struct inside `ShellCommandConfig.UnmarshalJSON`:
`allowCommands` and `denyCommands` are `json.RawMessage` (here
`Option Json`, `none` = absent = Go nil). -/
structure RawConfig where
  allowedDirectories : List String := []
  allowCommands : Option Json := none
  denyCommands : Option Json := none
  defaultErrorMessage : String := ""
  blockLogPath : String := ""
  maxExecutionTime : Int := 0
  maxOutputSize : Int := 0

/-- Go `json.Unmarshal(data, &raw)` for the anonymous raw struct: the
document must be an object (or null, leaving every zero value); each
present field is decoded at its struct type, a raw-message field keeps
the raw value. -/
def decodeRawConfig : Json → Except String RawConfig
  | Json.null => Except.ok {}
  | Json.obj fields => do
      let dirs ← fieldStringList fields "allowedDirectories"
      let msg ← fieldString fields "defaultErrorMessage"
      let blockPath ← fieldString fields "blockLogPath"
      let maxTime ← fieldInt fields "maxExecutionTime"
      let maxSize ← fieldInt fields "maxOutputSize"
      Except.ok { allowedDirectories := dirs,
                  allowCommands := lookupField fields "allowCommands",
                  denyCommands := lookupField fields "denyCommands",
                  defaultErrorMessage := msg,
                  blockLogPath := blockPath,
                  maxExecutionTime := maxTime,
                  maxOutputSize := maxSize }
  | _ => Except.error "cannot unmarshal value into struct"

/-- `ShellCommandConfig.UnmarshalJSON` (config.go): decode the raw
struct, run the custom allow/deny decoders, then substitute defaults
for an empty error message and non-positive numeric limits. -/
def ShellCommandConfig.unmarshalJSON (data : Json) : Except String ShellCommandConfig := do
  let raw ← decodeRawConfig data
  let allowCommands ← match UnmarshalAllowCommands raw.allowCommands with
    | Except.ok v => Except.ok v
    | Except.error e => Except.error ("error unmarshaling allow commands: " ++ e)
  let denyCommands ← match UnmarshalDenyCommands raw.denyCommands with
    | Except.ok v => Except.ok v
    | Except.error e => Except.error ("error unmarshaling deny commands: " ++ e)
  Except.ok
    { allowedDirectories := raw.allowedDirectories,
      allowCommands := allowCommands,
      denyCommands := denyCommands,
      defaultErrorMessage :=
        if raw.defaultErrorMessage ≠ "" then raw.defaultErrorMessage
        else "Command not allowed by security policy",
      blockLogPath := raw.blockLogPath,
      maxExecutionTime :=
        if raw.maxExecutionTime > 0 then raw.maxExecutionTime
        else DefaultExecutionTimeout,
      maxOutputSize :=
        if raw.maxOutputSize > 0 then raw.maxOutputSize
        else DefaultMaxOutputSize }

/-- `NewDefaultConfig` (config.go). -/
def NewDefaultConfig : ShellCommandConfig :=
  { allowedDirectories := ["/home", "/tmp"],
    allowCommands := [{ command := "ls" }, { command := "cat" }, { command := "echo" }],
    denyCommands := [{ command := "rm", message := "Remove command is not allowed" }],
    defaultErrorMessage := "Command not allowed by security policy",
    maxExecutionTime := DefaultExecutionTimeout,
    maxOutputSize := DefaultMaxOutputSize }

/-- `ShellCommandConfig.IsCommandAllowed` (config.go): membership of
the command in the allow list, ignoring deny rules and subcommand
constraints. -/
def ShellCommandConfig.IsCommandAllowed (c : ShellCommandConfig) (cmd : String) : Bool :=
  c.allowCommands.any (fun allowed => allowed.command == cmd)

/-- Go `json.Marshal` of an `AllowCommand` per its struct tags:
`command` always emitted, `subCommands` and `denySubCommands` carry
`omitempty` and are dropped when empty. -/
def AllowCommand.toJson (a : AllowCommand) : Json :=
  Json.obj
    ([("command", Json.str a.command)] ++
     (if a.subCommands.isEmpty then []
      else [("subCommands", Json.arr (a.subCommands.map Json.str))]) ++
     (if a.denySubCommands.isEmpty then []
      else [("denySubCommands", Json.arr (a.denySubCommands.map Json.str))]))

/-- Go `json.Marshal` of a `DenyCommand`: `command` always emitted,
`message` carries `omitempty`. -/
def DenyCommand.toJson (d : DenyCommand) : Json :=
  Json.obj
    ([("command", Json.str d.command)] ++
     (if d.message == "" then [] else [("message", Json.str d.message)]))

/-- Go `json.Marshal` of a `ShellCommandConfig` per its struct tags, in
struct field order; `blockLogPath`, `maxExecutionTime`, `maxOutputSize`
carry `omitempty` (dropped at their zero values). -/
def ShellCommandConfig.toJson (c : ShellCommandConfig) : Json :=
  Json.obj
    ([("allowedDirectories", Json.arr (c.allowedDirectories.map Json.str)),
      ("allowCommands", Json.arr (c.allowCommands.map AllowCommand.toJson)),
      ("denyCommands", Json.arr (c.denyCommands.map DenyCommand.toJson)),
      ("defaultErrorMessage", Json.str c.defaultErrorMessage)] ++
     (if c.blockLogPath == "" then []
      else [("blockLogPath", Json.str c.blockLogPath)]) ++
     (if c.maxExecutionTime == 0 then []
      else [("maxExecutionTime", Json.num c.maxExecutionTime)]) ++
     (if c.maxOutputSize == 0 then []
      else [("maxOutputSize", Json.num c.maxOutputSize)]))

/-!
## The runner (pkg/runner/runner.go)

`SafeRunner` holds a `*config.ShellConfig`.  The declaration of
`ShellConfig` itself is not among the sources at hand (only the config
file defining `ShellCommandConfig` is); its fields below are the ones
`runner.go` reads (`IsCommandAllowed`, `MaxExecutionTime`,
`RestrictedEnv`, `WorkingDir`) together with the rule lists of the
specification policy model.  The observable behaviour of a call is
modelled as a pair of a result and a trace of events, so that ordering
(validation before launch, log before launch, how many deadlines are
derived) is part of the model.
-/

/-- Modelled from the spec: the runner configuration
(`pkg/config.ShellConfig`), whose declaration is not among the sources;
the fields are exactly those `runner.go` dereferences plus the §3
policy-model rule lists.  `restrictedEnv` is the Go map rendered as an
association list. -/
structure ShellConfig where
  allowedDirectories : List String := []
  allowCommands : List AllowCommand := []
  denyCommands : List DenyCommand := []
  defaultErrorMessage : String := ""
  maxExecutionTime : Int := 0
  maxOutputSize : Int := 0
  restrictedEnv : List (String × String) := []
  workingDir : String := ""
deriving DecidableEq, Repr

/-- `IsCommandAllowed` on the runner configuration, mirroring
`ShellCommandConfig.IsCommandAllowed` (config.go): allow-list
membership only. -/
def ShellConfig.IsCommandAllowed (c : ShellConfig) (cmd : String) : Bool :=
  c.allowCommands.any (fun allowed => allowed.command == cmd)

/-- Observable events of one runner call, in program order.
`policyCheck` marks the call to `IsCommandAllowed`; `logAttempt` the
call to `LogCommandAttempt`; `deriveTimeout` a `context.WithTimeout`
derivation from `MaxExecutionTime`; `spawn` the process launch
(`exec.CommandContext` reaching `command.Run()`), carrying the
environment passed to the child (`none` = `Cmd.Env` left nil, i.e. the
child inherits the ambient environment) and the working directory. -/
inductive Event where
  | policyCheck (cmd : String) : Event
  | logAttempt (cmd : String) (args : List String) (allowed : Bool) : Event
  | deriveTimeout : Event
  | spawn (cmd : String) (args : List String)
      (env : Option (List (String × String))) (dir : String) : Event
deriving DecidableEq, Repr

/-- The result a runner call returns. -/
inductive RunResult where
  | ok : RunResult
  | errNoCommand : RunResult
  | errNotPermitted (cmd : String) : RunResult
  | errValidation : RunResult
  | errParse : RunResult
deriving DecidableEq, Repr

/-- `SafeRunner.Run` (runner.go lines 49–98): empty vector → error
before anything else; otherwise check `IsCommandAllowed` on `args[0]`,
log the attempt, derive a timeout context when `MaxExecutionTime > 0`,
set `Cmd.Env` from `RestrictedEnv` only when the map is non-empty, set
`Cmd.Dir` from `WorkingDir`, and run the process.  The outcome of the
spawned process itself (`command.Run()` succeeding or failing) is
abstracted to `ok`: the properties below concern only the decision and
the events up to the launch. -/
def SafeRunner.Run (cfg : ShellConfig) (args : List String) : RunResult × List Event :=
  match args with
  | [] => (RunResult.errNoCommand, [])
  | cmd :: rest =>
    if cfg.IsCommandAllowed cmd then
      (RunResult.ok,
       [Event.policyCheck cmd, Event.logAttempt cmd rest true] ++
       (if cfg.maxExecutionTime > 0 then [Event.deriveTimeout] else []) ++
       [Event.spawn cmd rest
         (if cfg.restrictedEnv.length > 0 then some cfg.restrictedEnv else none)
         cfg.workingDir])
    else
      (RunResult.errNotPermitted cmd,
       [Event.policyCheck cmd, Event.logAttempt cmd rest false])

/-- A command invocation: the unit the validator judges and the exec
hook receives. -/
structure Invocation where
  command : String
  args : List String
deriving DecidableEq, Repr

/-- A parsed script for the model: whether the text parses, and the
simple-command nodes the syntax tree contains (one `Invocation` per
node, pipelines and compound statements included). -/
structure Script where
  parseOk : Bool
  invocations : List Invocation
deriving DecidableEq, Repr

/-- Verdict of the validator for one invocation. -/
structure Verdict where
  allowed : Bool
  reason : String
deriving DecidableEq, Repr

/-- Modelled from the spec: the validator package (`pkg/validator`) is
not among the sources; this is §4.2 step 3 rule precedence — (a) a
matching `denyCommands` entry denies with the rule message or the
default message; (b) a matching `allowCommands` entry checks the
subcommand constraint (`subCommands` present: first argument must be a
member; `denySubCommands` present: first argument must not be a
member); (c) no match denies by default. -/
def Decide (cfg : ShellConfig) (cmd : String) (args : List String) : Verdict :=
  match cfg.denyCommands.find? (fun d => d.command == cmd) with
  | some d =>
      { allowed := false,
        reason := if d.message ≠ "" then d.message else cfg.defaultErrorMessage }
  | none =>
    match cfg.allowCommands.find? (fun a => a.command == cmd) with
    | some a =>
        if a.subCommands ≠ [] then
          match args.head? with
          | some s =>
              if a.subCommands.contains s then { allowed := true, reason := "" }
              else { allowed := false, reason := cfg.defaultErrorMessage }
          | none => { allowed := false, reason := cfg.defaultErrorMessage }
        else if a.denySubCommands ≠ [] then
          match args.head? with
          | some s =>
              if a.denySubCommands.contains s then
                { allowed := false, reason := cfg.defaultErrorMessage }
              else { allowed := true, reason := "" }
          | none => { allowed := true, reason := "" }
        else { allowed := true, reason := "" }
    | none => { allowed := false, reason := cfg.defaultErrorMessage }

/-- Modelled from the spec: `CommandValidator.ValidateScript`
(`pkg/validator`, not among the sources) — §4.2: a parse failure is a
validation failure; otherwise the script verdict is the conjunction of
the `Decide` verdicts of every simple-command node. -/
def ValidateScript (cfg : ShellConfig) (s : Script) : Bool :=
  s.parseOk && s.invocations.all (fun i => (Decide cfg i.command i.args).allowed)

/-- The `execHandler` closure of `SafeRunner.RunScript` (runner.go
lines 117–119): it forwards the interpreter's exec callback verbatim to
`SafeRunner.Run`. -/
def execHandler (cfg : ShellConfig) (args : List String) : RunResult × List Event :=
  SafeRunner.Run cfg args

/-- `SafeRunner.RunScript` (runner.go lines 101–155): validate the full
text first and return a failure on denial or error; re-parse for
execution; derive one script-level timeout context when
`MaxExecutionTime > 0`; run the interpreter, whose every process launch
calls `execHandler`.  `dyn` is the sequence of exec-hook callbacks the
interpreter issues while running the script (which of the parsed
commands actually execute, and in what order, is the interpreter's
business); the trace of the call is the script-level events followed by
the concatenated `execHandler` traces. -/
def SafeRunner.RunScript (cfg : ShellConfig) (s : Script) (dyn : List Invocation) :
    RunResult × List Event :=
  if ¬ ValidateScript cfg s then (RunResult.errValidation, [])
  else if ¬ s.parseOk then (RunResult.errParse, [])
  else
    let hookResults := dyn.map (fun i => execHandler cfg (i.command :: i.args))
    ((if hookResults.all (fun r => r.fst = RunResult.ok) then RunResult.ok
      else RunResult.errNotPermitted ""),
     (if cfg.maxExecutionTime > 0 then [Event.deriveTimeout] else []) ++
     (hookResults.map Prod.snd).flatten)

/-- Modelled from the spec: §3 `allowedDirectories` — the execution
working directory must resolve under one of the configured prefixes, an
empty set meaning unrestricted.  No code among the sources implements
this check; the definition exists to state what confinement would
require. -/
def dirAllowed (dirs : List String) (dir : String) : Bool :=
  dirs.isEmpty || dirs.any (fun p => p.toList.isPrefixOf dir.toList)

/-- The output path of `SafeRunner.Run` and `RunScript` (runner.go
lines 87–88 and 139): `command.Stdout`/`command.Stderr` and
`interp.StdIO` are wired directly to the caller-supplied sinks; no
size-limiting writer exists in the runner and `MaxOutputSize` is never
read there, so every produced byte is delivered. -/
def deliveredOutput (_cfg : ShellConfig) (produced : List Nat) : List Nat :=
  produced

/-- Event classifiers used by the trace statements. -/
def isSpawn : Event → Bool
  | Event.spawn _ _ _ _ => true
  | _ => false

def isLogAttempt : Event → Bool
  | Event.logAttempt _ _ _ => true
  | _ => false

def isDeriveTimeout : Event → Bool
  | Event.deriveTimeout => true
  | _ => false

/-- Number of timeout-context derivations in a trace. -/
def countDeadlines (t : List Event) : Nat :=
  (t.filter isDeriveTimeout).length

/-- The §4.1 default policy (`NewDefaultConfig`) as a runner
configuration: allow ls/cat/echo, deny rm, directories /home and /tmp,
30 s timeout, 50 KiB output cap, no restricted environment entries, no
working directory. -/
def defaultShellConfig : ShellConfig :=
  { allowedDirectories := ["/home", "/tmp"],
    allowCommands := [{ command := "ls" }, { command := "cat" }, { command := "echo" }],
    denyCommands := [{ command := "rm", message := "Remove command is not allowed" }],
    defaultErrorMessage := "Command not allowed by security policy",
    maxExecutionTime := DefaultExecutionTimeout,
    maxOutputSize := DefaultMaxOutputSize }

/-- A policy whose deny list and allow list both contain `rm`. -/
def bothListsConfig : ShellConfig :=
  { allowCommands := [{ command := "rm" }],
    denyCommands := [{ command := "rm", message := "Remove command is not allowed" }],
    defaultErrorMessage := "Command not allowed by security policy",
    maxExecutionTime := DefaultExecutionTimeout,
    maxOutputSize := DefaultMaxOutputSize }

/-!
## Theorems
-/

/-- Any spawn event in a `SafeRunner.Run` trace concerns the head
command, was allowed by `IsCommandAllowed`, and carries the environment
and directory the runner wires into `exec.Cmd`. -/
theorem spawn_in_run (cfg : ShellConfig) (args : List String) (cmd : String)
    (rest : List String) (env : Option (List (String × String))) (dir : String)
    (h : Event.spawn cmd rest env dir ∈ (SafeRunner.Run cfg args).snd) :
    cfg.IsCommandAllowed cmd = true ∧
    env = (if cfg.restrictedEnv.length > 0 then some cfg.restrictedEnv else none) ∧
    dir = cfg.workingDir := by
  match args with
  | [] => simp [SafeRunner.Run] at h
  | c :: r =>
    by_cases ha : cfg.IsCommandAllowed c <;>
      by_cases ht : cfg.maxExecutionTime > 0 <;>
      simp [SafeRunner.Run, ha, ht] at h <;>
      simp_all

/-- Any spawn event in a `SafeRunner.RunScript` trace comes from the
exec hook, hence from `SafeRunner.Run`, and therefore satisfies the
same allow and environment facts. -/
theorem spawn_in_runScript (cfg : ShellConfig) (s : Script) (dyn : List Invocation)
    (cmd : String) (rest : List String) (env : Option (List (String × String)))
    (dir : String)
    (h : Event.spawn cmd rest env dir ∈ (SafeRunner.RunScript cfg s dyn).snd) :
    cfg.IsCommandAllowed cmd = true ∧
    env = (if cfg.restrictedEnv.length > 0 then some cfg.restrictedEnv else none) ∧
    dir = cfg.workingDir := by
  by_cases hv : ValidateScript cfg s
  · by_cases hp : s.parseOk
    · by_cases ht : cfg.maxExecutionTime > 0 <;>
        simp [SafeRunner.RunScript, hv, hp, ht, List.mem_flatten] at h
      all_goals
        obtain ⟨i, _hi, hmem⟩ := h
        simp only [execHandler] at hmem
        exact spawn_in_run cfg (i.command :: i.args) cmd rest env dir hmem
    · simp [SafeRunner.RunScript, hv, hp] at h
  · simp [SafeRunner.RunScript, hv] at h

/-- C1 counterexample: with the policy that lists `rm` both in
`allowCommands` and in `denyCommands`, the direct `Run` path accepts
and launches `rm`, so the execution decision is not denied. -/
theorem c1_deny_precedence_counterexample :
    (SafeRunner.Run bothListsConfig ["rm", "-rf", "/"]).fst = RunResult.ok ∧
    Event.spawn "rm" ["-rf", "/"] none "" ∈
      (SafeRunner.Run bothListsConfig ["rm", "-rf", "/"]).snd := by
  decide

/-- C1 (amended): the validator rule `Decide` always denies a command
that matches a `denyCommands` entry (deny precedence), but the direct
`Run` path consults only allow-list membership (`IsCommandAllowed`), so
`Run` refuses a command exactly when it is missing from
`allowCommands` — a command on both lists is permitted by `Run`. -/
theorem c1_deny_precedence_amended (cfg : ShellConfig) (cmd : String)
    (args rest : List String) :
    ((∃ d ∈ cfg.denyCommands, d.command = cmd) →
      (Decide cfg cmd args).allowed = false) ∧
    ((SafeRunner.Run cfg (cmd :: rest)).fst = RunResult.errNotPermitted cmd ↔
      cfg.IsCommandAllowed cmd = false) := by
  constructor
  · intro h
    obtain ⟨d, hd, hcmd⟩ := h
    cases hfind : cfg.denyCommands.find? (fun x => x.command == cmd) with
    | none =>
        have := List.find?_eq_none.mp hfind d hd
        simp [hcmd] at this
    | some d2 => simp [Decide, hfind]
  · by_cases ha : cfg.IsCommandAllowed cmd <;> simp [SafeRunner.Run, ha]

/-- C1 witness: the amended statement evaluated on the both-lists
policy at `rm`. -/
theorem c1_deny_precedence_amended_witness :
    (Decide bothListsConfig "rm" ["-rf"]).allowed = false ∧
    ((SafeRunner.Run bothListsConfig ["rm", "-rf"]).fst =
        RunResult.errNotPermitted "rm" ↔
      bothListsConfig.IsCommandAllowed "rm" = false) := by
  have h := c1_deny_precedence_amended bothListsConfig "rm" ["-rf"] ["-rf"]
  exact ⟨h.1 ⟨{ command := "rm", message := "Remove command is not allowed" },
    by decide, rfl⟩, h.2⟩

/-- C2 counterexample: under the default policy the restricted
environment set is empty, yet `Run` spawns with `Cmd.Env` left nil
(ambient inheritance) instead of passing the empty restricted set. -/
theorem c2_restricted_env_counterexample :
    defaultShellConfig.restrictedEnv = [] ∧
    Event.spawn "ls" [] none "" ∈ (SafeRunner.Run defaultShellConfig ["ls"]).snd ∧
    (none : Option (List (String × String))) ≠ some defaultShellConfig.restrictedEnv := by
  decide

/-- C2 (amended): every process spawned by `Run` or through the script
exec hook receives exactly the restricted environment when that set is
non-empty; when the set is empty, `Cmd.Env` is left nil and the child
inherits the ambient environment. -/
theorem c2_restricted_env_amended (cfg : ShellConfig) (args : List String)
    (s : Script) (dyn : List Invocation) (cmd : String) (rest : List String)
    (env : Option (List (String × String))) (dir : String)
    (h : Event.spawn cmd rest env dir ∈ (SafeRunner.Run cfg args).snd ∨
         Event.spawn cmd rest env dir ∈ (SafeRunner.RunScript cfg s dyn).snd) :
    env = (if cfg.restrictedEnv.length > 0 then some cfg.restrictedEnv else none) := by
  rcases h with h | h
  · exact (spawn_in_run cfg args cmd rest env dir h).2.1
  · exact (spawn_in_runScript cfg s dyn cmd rest env dir h).2.1

/-- C2 witness: the amended statement evaluated at a concrete policy
with one restricted variable. -/
theorem c2_restricted_env_amended_witness :
    (some [("PATH", "/usr/bin")] : Option (List (String × String))) =
      (if ({ defaultShellConfig with
              restrictedEnv := [("PATH", "/usr/bin")] } : ShellConfig).restrictedEnv.length > 0
       then some ({ defaultShellConfig with
              restrictedEnv := [("PATH", "/usr/bin")] } : ShellConfig).restrictedEnv
       else none) := by
  exact c2_restricted_env_amended
    { defaultShellConfig with restrictedEnv := [("PATH", "/usr/bin")] }
    ["ls"] { parseOk := true, invocations := [] } [] "ls" []
    (some [("PATH", "/usr/bin")]) ""
    (Or.inl (by decide))

/-- C3: under the default policy the working directory `/etc` is
outside `allowedDirectories`, yet `Run` accepts the allowed command and
spawns it with `Cmd.Dir = "/etc"` — no validation against
`allowedDirectories` happens before launch. -/
theorem c3_workdir_not_validated :
    dirAllowed defaultShellConfig.allowedDirectories "/etc" = false ∧
    (SafeRunner.Run { defaultShellConfig with workingDir := "/etc" } ["ls"]).fst =
      RunResult.ok ∧
    Event.spawn "ls" [] none "/etc" ∈
      (SafeRunner.Run { defaultShellConfig with workingDir := "/etc" } ["ls"]).snd := by
  decide

/-- C4: the runner delivers every produced byte to the caller sinks —
a production one byte past the default 50 KiB cap arrives in full, and
the `maxOutputSize` limit (51200) is exceeded without truncation. -/
theorem c4_output_uncapped :
    defaultShellConfig.maxOutputSize = 51200 ∧
    (deliveredOutput defaultShellConfig (List.replicate 51201 0)).length = 51201 ∧
    ¬ ((51201 : Int) ≤ defaultShellConfig.maxOutputSize) := by
  refine ⟨by decide, ?_, by decide⟩
  show (List.replicate 51201 (0 : Nat)).length = 51201
  exact List.length_replicate 51201 0

/-- C5: a failed validation makes `RunScript` return the validation
failure with an empty trace (no interpreter, no spawn), and any spawn
event in a `RunScript` trace certifies that validation succeeded —
validation strictly precedes every launch. -/
theorem c5_validation_precedes_execution (cfg : ShellConfig) (s : Script)
    (dyn : List Invocation) :
    (ValidateScript cfg s = false →
      SafeRunner.RunScript cfg s dyn = (RunResult.errValidation, [])) ∧
    (∀ e ∈ (SafeRunner.RunScript cfg s dyn).snd, isSpawn e = true →
      ValidateScript cfg s = true) := by
  constructor
  · intro h
    simp [SafeRunner.RunScript, h]
  · intro e he _hs
    by_cases hv : ValidateScript cfg s
    · exact hv
    · simp [SafeRunner.RunScript, hv] at he

/-- C5 witness: a script that fails to parse (hence fails validation)
makes `RunScript` return the validation error with no events. -/
theorem c5_validation_precedes_execution_witness :
    SafeRunner.RunScript defaultShellConfig { parseOk := false, invocations := [] } [] =
      (RunResult.errValidation, []) := by
  exact (c5_validation_precedes_execution defaultShellConfig
    { parseOk := false, invocations := [] } []).1 (by decide)

/-- C6: the exec hook is the same enforcement function as the direct
path (`execHandler` forwards to `Run` unchanged), so a command that
`Run` refuses is never spawned during any `RunScript` execution. -/
theorem c6_hook_equals_run (cfg : ShellConfig) (cmd : String) (args : List String)
    (s : Script) (dyn : List Invocation)
    (h : (SafeRunner.Run cfg (cmd :: args)).fst = RunResult.errNotPermitted cmd) :
    (∀ v, execHandler cfg v = SafeRunner.Run cfg v) ∧
    ∀ rest env dir, Event.spawn cmd rest env dir ∉ (SafeRunner.RunScript cfg s dyn).snd := by
  have ha : cfg.IsCommandAllowed cmd = false := by
    by_cases hb : cfg.IsCommandAllowed cmd
    · rw [show (SafeRunner.Run cfg (cmd :: args)).fst = RunResult.ok from
        by simp [SafeRunner.Run, hb]] at h
      exact absurd h (by simp)
    · simpa using hb
  refine ⟨fun v => rfl, fun rest env dir hmem => ?_⟩
  have hall := (spawn_in_runScript cfg s dyn cmd rest env dir hmem).1
  rw [ha] at hall
  exact Bool.false_ne_true hall

/-- C6 witness: under the default policy `Run` refuses `rm`, and a
script whose interpreter attempts `rm` through the hook never spawns
it. -/
theorem c6_hook_equals_run_witness :
    execHandler defaultShellConfig ["ls"] = SafeRunner.Run defaultShellConfig ["ls"] ∧
    Event.spawn "rm" ["-rf"] none "" ∉
      (SafeRunner.RunScript defaultShellConfig { parseOk := true, invocations := [] }
        [{ command := "rm", args := ["-rf"] }]).snd := by
  have h := c6_hook_equals_run defaultShellConfig "rm" ["-rf"]
    { parseOk := true, invocations := [] } [{ command := "rm", args := ["-rf"] }]
    (by decide)
  exact ⟨h.1 ["ls"], h.2 ["-rf"] none ""⟩

/-- C7 counterexample: with a 30 s limit, a validated one-command
script derives two timeout contexts — one in `RunScript` and a fresh
one in `Run` when the hook launches the sub-command — not exactly
one. -/
theorem c7_two_deadlines_counterexample :
    countDeadlines (SafeRunner.RunScript
      { allowCommands := [{ command := "echo" }], maxExecutionTime := 30 }
      { parseOk := true, invocations := [{ command := "echo", args := ["hi"] }] }
      [{ command := "echo", args := ["hi"] }]).snd = 2 := by
  decide

/-- Deadline derivations split over trace concatenation. -/
theorem countDeadlines_append (a b : List Event) :
    countDeadlines (a ++ b) = countDeadlines a + countDeadlines b := by
  simp [countDeadlines, List.filter_append]

/-- One direct `Run` call with a positive time limit derives exactly
one fresh deadline when the command is allowed and none when it is
refused. -/
theorem countDeadlines_run (cfg : ShellConfig) (ht : cfg.maxExecutionTime > 0)
    (c : String) (r : List String) :
    countDeadlines (SafeRunner.Run cfg (c :: r)).snd =
      (if cfg.IsCommandAllowed c then 1 else 0) := by
  by_cases ha : cfg.IsCommandAllowed c <;>
    simp [SafeRunner.Run, countDeadlines, ha, ht, isDeriveTimeout, List.filter]

/-- Deadline derivations contributed by the exec-hook launches: one
per allowed sub-command. -/
theorem countDeadlines_hooks (cfg : ShellConfig) (ht : cfg.maxExecutionTime > 0)
    (dyn : List Invocation) :
    countDeadlines ((dyn.map (fun i => execHandler cfg (i.command :: i.args))).map
        Prod.snd).flatten =
      (dyn.filter (fun i => cfg.IsCommandAllowed i.command)).length := by
  induction dyn with
  | nil => simp [countDeadlines]
  | cons i rest ih =>
      rw [List.map_cons, List.map_cons, List.flatten_cons, countDeadlines_append]
      simp only [execHandler] at ih ⊢
      rw [countDeadlines_run cfg ht i.command i.args, ih, List.filter_cons]
      by_cases ha : cfg.IsCommandAllowed i.command <;> simp [ha, Nat.add_comm]

/-- C7 (amended): `RunScript` derives one script-level deadline, and in
addition every allowed sub-command launched through the exec hook
derives a fresh per-command deadline of its own inside `Run`. -/
theorem c7_single_deadline_amended (cfg : ShellConfig) (s : Script)
    (dyn : List Invocation) (hv : ValidateScript cfg s = true)
    (ht : cfg.maxExecutionTime > 0) :
    countDeadlines (SafeRunner.RunScript cfg s dyn).snd =
      1 + (dyn.filter (fun i => cfg.IsCommandAllowed i.command)).length := by
  have hp : s.parseOk = true := by
    have h2 := hv
    simp [ValidateScript, Bool.and_eq_true] at h2
    exact h2.1
  have hres : (SafeRunner.RunScript cfg s dyn).snd =
      [Event.deriveTimeout] ++
      ((dyn.map (fun i => execHandler cfg (i.command :: i.args))).map Prod.snd).flatten := by
    simp [SafeRunner.RunScript, hv, hp, ht]
  rw [hres, countDeadlines_append, countDeadlines_hooks cfg ht]
  simp [countDeadlines, isDeriveTimeout, List.filter]

/-- C7 witness: the amended count evaluated on a concrete validated
two-command script. -/
theorem c7_single_deadline_amended_witness :
    countDeadlines (SafeRunner.RunScript defaultShellConfig
      { parseOk := true,
        invocations := [{ command := "ls", args := [] }] }
      [⟨"ls", []⟩, ⟨"rm", []⟩]).snd =
      1 + (([⟨"ls", []⟩, ⟨"rm", []⟩] : List Invocation).filter
        (fun i => defaultShellConfig.IsCommandAllowed i.command)).length := by
  exact c7_single_deadline_amended defaultShellConfig
    { parseOk := true, invocations := [⟨"ls", []⟩] }
    [⟨"ls", []⟩, ⟨"rm", []⟩]
    (by decide) (by decide)

/-- C9: the empty command vector returns the no-command error with an
empty trace (no policy check, no log, no spawn); every non-empty vector
logs exactly one attempt, a refused call spawns nothing, and the first
logged-or-spawned event of the trace is the attempt log. -/
theorem c9_empty_vector_and_single_log (cfg : ShellConfig) :
    SafeRunner.Run cfg [] = (RunResult.errNoCommand, []) ∧
    ∀ cmd rest,
      ((SafeRunner.Run cfg (cmd :: rest)).snd.filter isLogAttempt).length = 1 ∧
      ((SafeRunner.Run cfg (cmd :: rest)).fst = RunResult.errNotPermitted cmd →
        (SafeRunner.Run cfg (cmd :: rest)).snd.filter isSpawn = []) ∧
      ((SafeRunner.Run cfg (cmd :: rest)).snd.filter
          (fun e => isLogAttempt e || isSpawn e)).head? =
        some (Event.logAttempt cmd rest (cfg.IsCommandAllowed cmd)) := by
  refine ⟨rfl, fun cmd rest => ?_⟩
  by_cases ha : cfg.IsCommandAllowed cmd <;> by_cases ht : cfg.maxExecutionTime > 0 <;>
    simp [SafeRunner.Run, ha, ht, isLogAttempt, isSpawn, List.filter]

/-- C9 witness: the statement evaluated under the default policy at the
empty vector and at the refused command `rm`. -/
theorem c9_empty_vector_and_single_log_witness :
    SafeRunner.Run defaultShellConfig [] = (RunResult.errNoCommand, []) ∧
    ((SafeRunner.Run defaultShellConfig ["rm"]).snd.filter isLogAttempt).length = 1 ∧
    (SafeRunner.Run defaultShellConfig ["rm"]).snd.filter isSpawn = [] := by
  have h := c9_empty_vector_and_single_log defaultShellConfig
  exact ⟨h.1, (h.2 "rm" []).1, (h.2 "rm" []).2.1 (by decide)⟩

/-!
## JSON decoding and round-trip (config.go)
-/

/-- Field access on a JSON document (none on non-objects). -/
def Json.getField : Json → String → Option Json
  | Json.obj fields, k => lookupField fields k
  | _, _ => none

/-- Computation rule for `Except` bind against a success result. -/
theorem except_bind_ok {α β : Type} (x : Except String α) (f : α → Except String β)
    (b : β) : (x >>= f) = Except.ok b ↔ ∃ a, x = Except.ok a ∧ f a = Except.ok b := by
  cases x <;> simp [Bind.bind, Except.bind]

/-- A decoder that inverts an encoder element-wise inverts it on
encoded lists. -/
theorem mapM_map_roundtrip {α : Type} (enc : α → Json) (dec : Json → Except String α)
    (l : List α) (h : ∀ a ∈ l, dec (enc a) = Except.ok a) :
    (l.map enc).mapM dec = Except.ok l := by
  induction l with
  | nil => rfl
  | cons a l ih =>
      rw [List.map_cons, List.mapM_cons, h a (List.mem_cons_self a l),
        ih (fun b hb => h b (List.mem_cons_of_mem a hb))]
      rfl

/-- Decoding inverts encoding on string lists. -/
theorem decodeStringList_str_map (xs : List String) :
    decodeStringList (Json.arr (xs.map Json.str)) = Except.ok xs := by
  rw [decodeStringList]
  exact mapM_map_roundtrip Json.str decodeString xs (fun a _ => rfl)

/-- Decoding inverts encoding on string lists, head-exposed form. -/
theorem decodeStringList_str_map_cons (x : String) (xs : List String) :
    decodeStringList (Json.arr (Json.str x :: xs.map Json.str)) = Except.ok (x :: xs) := by
  simpa using decodeStringList_str_map (x :: xs)

/-- Decoding inverts marshalling on one allow rule. -/
theorem decodeAllowEntry_toJson (a : AllowCommand) :
    decodeAllowEntry (AllowCommand.toJson a) = Except.ok a := by
  obtain ⟨c, sub, dsub⟩ := a
  rcases sub with _ | ⟨s0, stl⟩ <;> rcases dsub with _ | ⟨d0, dtl⟩ <;>
    simp [AllowCommand.toJson, decodeAllowEntry, decodeAllowObject, fieldString,
      fieldStringList, lookupField, List.lookup, decodeString,
      decodeStringList_str_map, decodeStringList_str_map_cons,
      Bind.bind, Except.bind, pure, Except.pure]

/-- Decoding inverts marshalling on one deny rule. -/
theorem decodeDenyEntry_toJson (d : DenyCommand) :
    decodeDenyEntry (DenyCommand.toJson d) = Except.ok d := by
  obtain ⟨c, m⟩ := d
  by_cases hm : m = ""
  · subst hm
    simp [DenyCommand.toJson, decodeDenyEntry, decodeDenyObject, fieldString,
      lookupField, List.lookup, decodeString, Bind.bind, Except.bind, pure,
      Except.pure]
  · have hm2 : (m == "") = false := by simp [hm]
    simp [DenyCommand.toJson, decodeDenyEntry, decodeDenyObject, fieldString,
      lookupField, List.lookup, decodeString, hm2, Bind.bind, Except.bind, pure,
      Except.pure]

/-- Decoding the raw struct from a marshalled config recovers every
field, the rule lists staying raw. -/
theorem decodeRawConfig_toJson (c : ShellCommandConfig)
    (ht : c.maxExecutionTime > 0) (hs : c.maxOutputSize > 0) :
    decodeRawConfig c.toJson = Except.ok
      { allowedDirectories := c.allowedDirectories,
        allowCommands := some (Json.arr (c.allowCommands.map AllowCommand.toJson)),
        denyCommands := some (Json.arr (c.denyCommands.map DenyCommand.toJson)),
        defaultErrorMessage := c.defaultErrorMessage,
        blockLogPath := c.blockLogPath,
        maxExecutionTime := c.maxExecutionTime,
        maxOutputSize := c.maxOutputSize } := by
  have ht0 : (c.maxExecutionTime == 0) = false := by
    simp only [beq_eq_false_iff_ne, ne_eq]
    omega
  have hs0 : (c.maxOutputSize == 0) = false := by
    simp only [beq_eq_false_iff_ne, ne_eq]
    omega
  by_cases hb : c.blockLogPath = ""
  · have hb2 : (c.blockLogPath == "") = true := by simp [hb]
    simp [ShellCommandConfig.toJson, decodeRawConfig, fieldString, fieldStringList,
      fieldInt, lookupField, List.lookup, decodeString, decodeInt,
      decodeStringList_str_map, decodeStringList_str_map_cons,
      hb2, ht0, hs0, hb, Bind.bind, Except.bind, pure, Except.pure]
  · have hb2 : (c.blockLogPath == "") = false := by simp [hb]
    simp [ShellCommandConfig.toJson, decodeRawConfig, fieldString, fieldStringList,
      fieldInt, lookupField, List.lookup, decodeString, decodeInt,
      decodeStringList_str_map, decodeStringList_str_map_cons,
      hb2, ht0, hs0, Bind.bind, Except.bind, pure, Except.pure]

/-- A successfully decoded config always carries a non-empty error
message and positive limits (the defaulting arms of `UnmarshalJSON`). -/
theorem unmarshal_defaults (j : Json) (cfg : ShellCommandConfig)
    (h : ShellCommandConfig.unmarshalJSON j = Except.ok cfg) :
    cfg.defaultErrorMessage ≠ "" ∧ cfg.maxExecutionTime > 0 ∧ cfg.maxOutputSize > 0 := by
  simp only [ShellCommandConfig.unmarshalJSON] at h
  rw [except_bind_ok] at h
  obtain ⟨raw, _, h⟩ := h
  cases hA : UnmarshalAllowCommands raw.allowCommands with
  | error e => rw [hA] at h; simp [Bind.bind, Except.bind] at h
  | ok allow =>
    rw [hA] at h
    cases hD : UnmarshalDenyCommands raw.denyCommands with
    | error e => rw [hD] at h; simp [Bind.bind, Except.bind] at h
    | ok deny =>
      rw [hD] at h
      simp only [Bind.bind, Except.bind] at h
      injection h with h2
      subst h2
      refine ⟨?_, ?_, ?_⟩ <;> dsimp only <;> split_ifs with hx
      · exact hx
      · decide
      · exact hx
      · decide
      · exact hx
      · decide

/-- Decoding the re-serialized form of a decoded config yields the
config unchanged. -/
theorem unmarshal_marshal_id (c : ShellCommandConfig)
    (hmsg : c.defaultErrorMessage ≠ "") (ht : c.maxExecutionTime > 0)
    (hs : c.maxOutputSize > 0) :
    ShellCommandConfig.unmarshalJSON c.toJson = Except.ok c := by
  simp only [ShellCommandConfig.unmarshalJSON]
  rw [decodeRawConfig_toJson c ht hs]
  have hA : UnmarshalAllowCommands
      (some (Json.arr (c.allowCommands.map AllowCommand.toJson))) =
      Except.ok c.allowCommands := by
    rw [UnmarshalAllowCommands]
    exact mapM_map_roundtrip AllowCommand.toJson decodeAllowEntry c.allowCommands
      (fun a _ => decodeAllowEntry_toJson a)
  have hD : UnmarshalDenyCommands
      (some (Json.arr (c.denyCommands.map DenyCommand.toJson))) =
      Except.ok c.denyCommands := by
    rw [UnmarshalDenyCommands]
    exact mapM_map_roundtrip DenyCommand.toJson decodeDenyEntry c.denyCommands
      (fun d _ => decodeDenyEntry_toJson d)
  simp only [Bind.bind, Except.bind, hA, hD]
  simp [hmsg, ht, hs]

/-- A JSON policy document with a bare-string allow entry, a
bare-string deny entry and an explicitly present empty
`defaultErrorMessage`. -/
def sampleDoc : Json :=
  Json.obj [("allowedDirectories", Json.arr []),
    ("allowCommands", Json.arr [Json.str "ls"]),
    ("denyCommands", Json.arr [Json.str "rm"]),
    ("defaultErrorMessage", Json.str "")]

/-- The config `sampleDoc` decodes to. -/
def sampleCfg : ShellCommandConfig :=
  { allowCommands := [{ command := "ls" }],
    denyCommands := [{ command := "rm" }],
    defaultErrorMessage := "Command not allowed by security policy",
    maxExecutionTime := 30,
    maxOutputSize := 51200 }

/-- C8 counterexample: decoding `sampleDoc` succeeds, but
re-serializing changes more than the two numeric limits — the
bare-string allow entry `"ls"` comes back as the object
`{command: "ls"}`, and the explicitly present `defaultErrorMessage`
value `""` comes back as the default message. -/
theorem c8_roundtrip_counterexample :
    ShellCommandConfig.unmarshalJSON sampleDoc = Except.ok sampleCfg ∧
    sampleDoc.getField "allowCommands" = some (Json.arr [Json.str "ls"]) ∧
    sampleCfg.toJson.getField "allowCommands" =
      some (Json.arr [Json.obj [("command", Json.str "ls")]]) ∧
    sampleDoc.getField "defaultErrorMessage" = some (Json.str "") ∧
    sampleCfg.toJson.getField "defaultErrorMessage" =
      some (Json.str "Command not allowed by security policy") ∧
    (Json.str "ls" ≠ Json.obj [("command", Json.str "ls")]) ∧
    (Json.str "" ≠ Json.str "Command not allowed by security policy") := by
  refine ⟨rfl, rfl, rfl, rfl, rfl, by simp, by simp⟩

/-- C8 (amended): re-serialization is canonicalizing rather than
verbatim — bare-string rule entries come back as objects and an
absent or empty `defaultErrorMessage` comes back as the default
message, besides the defaulted numeric limits — but it loses nothing:
decoding the re-serialized form of any successfully decoded policy
yields that policy unchanged. -/
theorem c8_roundtrip_amended (j : Json) (cfg : ShellCommandConfig)
    (h : ShellCommandConfig.unmarshalJSON j = Except.ok cfg) :
    ShellCommandConfig.unmarshalJSON cfg.toJson = Except.ok cfg := by
  obtain ⟨hmsg, ht, hs⟩ := unmarshal_defaults j cfg h
  exact unmarshal_marshal_id cfg hmsg ht hs

/-- C8 witness: the round trip evaluated on the decoded sample
document. -/
theorem c8_roundtrip_amended_witness :
    ShellCommandConfig.unmarshalJSON sampleCfg.toJson = Except.ok sampleCfg := by
  exact c8_roundtrip_amended sampleDoc sampleCfg rfl

/-- C10: a JSON object that omits the `allowCommands` field or the
`denyCommands` field never decodes to a config — the nil raw message
makes the custom rule-list decoder fail. -/
theorem c10_missing_rule_list_fails (fields : List (String × Json))
    (h : lookupField fields "allowCommands" = none ∨
         lookupField fields "denyCommands" = none) :
    ∀ cfg, ShellCommandConfig.unmarshalJSON (Json.obj fields) ≠ Except.ok cfg := by
  intro cfg hok
  simp only [ShellCommandConfig.unmarshalJSON] at hok
  rw [except_bind_ok] at hok
  obtain ⟨raw, hraw, hok⟩ := hok
  have hfields : raw.allowCommands = lookupField fields "allowCommands" ∧
      raw.denyCommands = lookupField fields "denyCommands" := by
    simp only [decodeRawConfig] at hraw
    rw [except_bind_ok] at hraw
    obtain ⟨dirs, _, hraw⟩ := hraw
    rw [except_bind_ok] at hraw
    obtain ⟨msg, _, hraw⟩ := hraw
    rw [except_bind_ok] at hraw
    obtain ⟨bp, _, hraw⟩ := hraw
    rw [except_bind_ok] at hraw
    obtain ⟨mt, _, hraw⟩ := hraw
    rw [except_bind_ok] at hraw
    obtain ⟨ms, _, hraw⟩ := hraw
    injection hraw with h2
    subst h2
    exact ⟨rfl, rfl⟩
  rcases h with h | h
  · have hnone : raw.allowCommands = none := hfields.1.trans h
    rw [hnone] at hok
    simp [UnmarshalAllowCommands, Bind.bind, Except.bind] at hok
  · have hnone : raw.denyCommands = none := hfields.2.trans h
    cases hA : UnmarshalAllowCommands raw.allowCommands with
    | error e => rw [hA] at hok; simp [Bind.bind, Except.bind] at hok
    | ok allow =>
      rw [hA, hnone] at hok
      simp [UnmarshalDenyCommands, Bind.bind, Except.bind] at hok

/-- C10 witness: a document carrying only `denyCommands` (no
`allowCommands` field) fails to decode. -/
theorem c10_missing_rule_list_fails_witness :
    ShellCommandConfig.unmarshalJSON
      (Json.obj [("denyCommands", Json.arr [])]) ≠
      Except.ok NewDefaultConfig := by
  exact c10_missing_rule_list_fails [("denyCommands", Json.arr [])]
    (Or.inl rfl) NewDefaultConfig

end SecureShell
